import Mathlib

/-!
Verification of the Joyboy telecom package simulator backend
(src/backend/simulator/monte_carlo.py, sensitivity.py, bayesian_opt.py and
the request validation of src/backend/simulator/models.py).

The Python code is embedded shallowly:

* floats become exact rationals (`ℚ`); the two square roots appearing in the
  confidence-interval code (`math.sqrt`, implicit in `np.std`) are kept as
  real-valued derived views of the rational aggregate;
* numpy's seeded generator is an external library and is modelled as an
  oracle: a pair of streams of values together with a draw counter.  A
  binomial draw is an arbitrary stream value clamped to its guaranteed
  support `{0, …, n}` (numpy's `Generator.binomial(n, p)` always returns a
  value in that range); continuous draws are arbitrary stream values.  The
  distribution parameters (`p_join`, segment means, the renewal rate)
  affect only which outcome a real generator would pick, which the oracle
  abstracts, so every universally quantified theorem below covers every
  outcome the real sampler can produce;
* a raised Python exception is `none` / `Except.error`.
-/

/-- `SimParams` from monte_carlo.py: the immutable parameter bundle passed to
all simulation functions. -/
structure SimParams where
  N0 : ℕ
  T_days : ℕ
  discount_rate : ℚ
  beta_data : ℚ
  beta_voice : ℚ
  beta_price : ℚ
  beta_validity : ℚ
  sigma : ℚ
  use_mixture : Bool
  mu_light : ℚ
  sigma_light : ℚ
  pi_light : ℚ
  mu_medium : ℚ
  sigma_medium : ℚ
  pi_medium : ℚ
  mu_heavy : ℚ
  sigma_heavy : ℚ
  mu_voice : ℚ
  sigma_voice : ℚ
  c_gb_3g : ℚ
  c_gb_4g : ℚ
  c_gb_5g : ℚ
  pct_3g : ℚ
  pct_4g : ℚ
  pct_5g : ℚ
  c_min : ℚ
  p_over_data : ℚ
  p_over_voice : ℚ
  enable_renewal : Bool
  base_renewal_rate : ℚ
  renewal_decay : ℚ
  risk_lambda : ℚ
deriving DecidableEq

/-- `SimParams.pi_heavy`: the derived heavy-segment weight
`max(0.0, 1.0 - pi_light - pi_medium)`. -/
def SimParams.pi_heavy (p : SimParams) : ℚ :=
  max 0 (1 - p.pi_light - p.pi_medium)

/-- `PackageSpec` from monte_carlo.py. -/
structure PackageSpec where
  data_gb : ℚ
  voice_min : ℚ
  validity_days : ℕ
  price : ℚ
  label : String
deriving DecidableEq

/-- Oracle model of `np.random.default_rng(seed)`: two streams of outcomes
(one for discrete draws, one for continuous draws) and a position counter.
Each draw consumes one position, so later draws of the same generator read
later stream positions, mirroring the statefulness of the numpy generator. -/
structure RNG where
  ints : ℕ → ℕ
  rats : ℕ → ℚ
  ctr : ℕ

/-- Advance the draw counter by `n` positions. -/
def RNG.advance (g : RNG) (n : ℕ) : RNG :=
  ⟨g.ints, g.rats, g.ctr + n⟩

/-- One continuous draw (used for `rng.normal`; the location/scale parameters
only shape the distribution, which the oracle abstracts). -/
def RNG.nextRat (g : RNG) : ℚ × RNG :=
  (g.rats g.ctr, g.advance 1)

/-- Oracle model of `rng.binomial(n, p)`: an arbitrary stream value clamped
to the guaranteed support `{0, …, n}`.  `p` (clipped into `(0,1)` at the
acquisition call site, clamped into `[0,1]` at the renewal call site)
selects only the distribution over that support, which the oracle
abstracts. -/
def RNG.binomial (g : RNG) (n : ℕ) : ℕ × RNG :=
  (min (g.ints g.ctr) n, g.advance 1)

/-- `n` continuous draws (vectorised `rng.lognormal(…, size=n)`). -/
def RNG.ratList (g : RNG) (n : ℕ) : List ℚ × RNG :=
  ((List.range n).map fun i => g.rats (g.ctr + i), g.advance n)

/-- `n` discrete draws (vectorised `rng.choice(3, size=n, p=…)`). -/
def RNG.natList (g : RNG) (n : ℕ) : List ℕ × RNG :=
  ((List.range n).map fun i => g.ints (g.ctr + i), g.advance n)

/-- `_value_of_data` from monte_carlo.py (real-valued; documents the utility
term abstracted by the binomial oracle). -/
noncomputable def _value_of_data (data_gb : ℚ) : ℝ :=
  Real.log (1 + (data_gb : ℝ))

/-- `_value_of_voice` from monte_carlo.py. -/
noncomputable def _value_of_voice (voice_min : ℚ) : ℝ :=
  Real.log (1 + (voice_min : ℝ))

/-- The utility value computed inside `_compute_acquisition`, given the
Gaussian noise draw `eps`.  It parameterises the acquisition probability
`p_join = clip(sigmoid(u), 0.001, 0.999)`; since `p_join` only selects the
distribution of the binomial draw over `{0, …, N0}`, the computable
embedding `_compute_acquisition` below abstracts it via the oracle. -/
noncomputable def acquisitionUtility (pkg : PackageSpec) (params : SimParams) (eps : ℝ) : ℝ :=
  (params.beta_data : ℝ) * _value_of_data pkg.data_gb
    + (params.beta_voice : ℝ) * _value_of_voice pkg.voice_min
    + (params.beta_validity : ℝ) * Real.log (max 1 (pkg.validity_days : ℝ))
    - (params.beta_price : ℝ) * (pkg.price : ℝ) + eps

/-- `p_join` from `_compute_acquisition`: logistic of the utility, clipped to
`[0.001, 0.999]`. -/
noncomputable def pJoin (pkg : PackageSpec) (params : SimParams) (eps : ℝ) : ℝ :=
  max (1/1000) (min (999/1000)
    (1 / (1 + Real.exp (-(acquisitionUtility pkg params eps)))))

/-- `_compute_acquisition` from monte_carlo.py: one Gaussian noise draw for
`eps`, then a `Binomial(N0, p_join)` draw of the initial buyer count.  The
oracle binomial ranges over the full support `{0, …, N0}`, covering every
outcome possible under the clipped `p_join ∈ [0.001, 0.999]`. -/
def _compute_acquisition (_pkg : PackageSpec) (params : SimParams) (g : RNG) : ℕ × RNG :=
  let (_eps, g1) := g.nextRat
  g1.binomial params.N0

/-- `_sample_data_usage` from monte_carlo.py.  Zero users short-circuit to an
empty result without touching the generator.  In mixture mode the segment
weights are normalised by their sum; numpy's `rng.choice` raises a
`ValueError` when the normalised probability vector contains a NaN (zero
sum) or a negative entry, which the embedding models as `none`.  One
discrete draw per user assigns the segment and one continuous draw per user
produces the usage value (the per-segment lognormal parameters shape only
the distribution, which the oracle abstracts). -/
def _sample_data_usage (n_users : ℕ) (params : SimParams) (g : RNG) :
    Option (List ℚ × RNG) :=
  if n_users = 0 then some ([], g)
  else if params.use_mixture then
    let s := params.pi_light + params.pi_medium + params.pi_heavy
    if s = 0 ∨ ([params.pi_light / s, params.pi_medium / s, params.pi_heavy / s].any
        fun x => decide (x < 0)) then none
    else
      let (_segments, g1) := g.natList n_users
      let (usage, g2) := g1.ratList n_users
      some (usage, g2)
  else
    let (usage, g1) := g.ratList n_users
    some (usage, g1)

/-- `_sample_voice_usage` from monte_carlo.py: a single lognormal, never
fails; zero users short-circuit without touching the generator. -/
def _sample_voice_usage (n_users : ℕ) (_params : SimParams) (g : RNG) :
    List ℚ × RNG :=
  if n_users = 0 then ([], g)
  else g.ratList n_users

/-- `_compute_network_data_cost` from monte_carlo.py.  Empty usage returns 0
without drawing.  Otherwise the network shares are normalised by their sum;
numpy raises when the sum is 0 (all-NaN probabilities) or a normalised
entry is negative — modelled as `none`.  Each user is assigned a network
type by a discrete draw and billed at that type's unit cost. -/
def _compute_network_data_cost (data_usage : List ℚ) (params : SimParams) (g : RNG) :
    Option (ℚ × RNG) :=
  if data_usage.length = 0 then some (0, g)
  else
    let s := params.pct_3g + params.pct_4g + params.pct_5g
    if s = 0 ∨ ([params.pct_3g / s, params.pct_4g / s, params.pct_5g / s].any
        fun x => decide (x < 0)) then none
    else
      let (network_types, g1) := g.natList data_usage.length
      let costs_per_gb : List ℚ := [params.c_gb_3g, params.c_gb_4g, params.c_gb_5g]
      let per_user_cost :=
        (data_usage.zip (network_types.map fun t => t % 3)).map
          fun ut => ut.1 * costs_per_gb.getD ut.2 0
      some (per_user_cost.sum, g1)

/-- `_run_single_period` from monte_carlo.py.  Returns
`(revenue, cost, profit, n_active, generator)`; `n_active = 0` yields all
zeros without touching the generator.  Data (resp. voice) usage is sampled
only when the package includes a positive data (resp. voice) allowance;
otherwise the usage vector is all zeros and no overage is charged. -/
def _run_single_period (n_active : ℕ) (pkg : PackageSpec) (params : SimParams) (g : RNG) :
    Option (ℚ × ℚ × ℚ × ℕ × RNG) :=
  if n_active = 0 then some (0, 0, 0, 0, g)
  else
    let r_package : ℚ := (n_active : ℚ) * pkg.price
    let dataStep : Option (List ℚ × ℚ × RNG) :=
      if 0 < pkg.data_gb then
        (_sample_data_usage n_active params g).map fun ug =>
          (ug.1, ((ug.1.map fun x => max (x - pkg.data_gb) 0).sum) * params.p_over_data, ug.2)
      else some (List.replicate n_active 0, 0, g)
    match dataStep with
    | none => none
    | some (data_usage, r_data_overage, g1) =>
      let voiceStep : List ℚ × ℚ × RNG :=
        if 0 < pkg.voice_min then
          let (u, g2) := _sample_voice_usage n_active params g1
          (u, ((u.map fun x => max (x - pkg.voice_min) 0).sum) * params.p_over_voice, g2)
        else (List.replicate n_active 0, 0, g1)
      match voiceStep with
      | (voice_usage, r_voice_overage, g2) =>
        let revenue := r_package + r_data_overage + r_voice_overage
        match _compute_network_data_cost data_usage params g2 with
        | none => none
        | some (data_cost, g3) =>
          let voice_cost := voice_usage.sum * params.c_min
          let cost := data_cost + voice_cost
          some (revenue, cost, revenue - cost, n_active, g3)

/-- One row of `period_data` built by `run_single_simulation`. -/
structure PeriodRow where
  period : ℕ
  active_users : ℕ
  revenue : ℚ
  cost : ℚ
  profit : ℚ
  cumulative_profit : ℚ
deriving DecidableEq

/-- The period loop of `run_single_simulation` (monte_carlo.py lines
269-299).  `rem` counts the periods still to simulate including the current
one; `idx` is the 0-based period index; `cumul` the running undiscounted
cumulative profit.  Returns the discounted profit contributed by the
remaining periods, their `PeriodRow`s, and the loop's exit state — the
value of the Python locals `n_active` and `rng` when the loop ends.  A zero
discount factor (`ZeroDivisionError` in Python) and a failed period both
yield `none`.  When renewal applies and the binomial renewal draw returns
0, the loop sets `n_active` to 0 and breaks: no further rows are produced
and the exit active count is 0. -/
def simLoop (pkg : PackageSpec) (params : SimParams) :
    ℕ → ℕ → ℕ → ℚ → RNG → Option (ℚ × List PeriodRow × ℕ × RNG)
  | 0, _, n_active, _, g => some (0, [], n_active, g)
  | rem + 1, idx, n_active, cumul, g =>
    match _run_single_period n_active pkg params g with
    | none => none
    | some (revenue, cost, profit, _, g1) =>
      let discount_factor : ℚ := (1 + params.discount_rate) ^ ((idx + 1) * pkg.validity_days)
      if discount_factor = 0 then none
      else
        let discounted_profit := profit / discount_factor
        let cumul' := cumul + profit
        let row : PeriodRow := ⟨idx + 1, n_active, revenue, cost, profit, cumul'⟩
        if params.enable_renewal = true ∧ 0 < rem then
          -- renewal_rate = min(1, max(0, base_renewal_rate - renewal_decay * idx));
          -- it selects only the distribution of the binomial draw, which the
          -- oracle abstracts.
          let _renewal_rate : ℚ :=
            min 1 (max 0 (params.base_renewal_rate - params.renewal_decay * (idx : ℚ)))
          match g1.binomial n_active with
          | (0, g2) => some (discounted_profit, [row], 0, g2)
          | (k + 1, g2) =>
            match simLoop pkg params rem (idx + 1) (k + 1) cumul' g2 with
            | none => none
            | some (rest, restRows, fa, gf) =>
              some (discounted_profit + rest, row :: restRows, fa, gf)
        else
          match simLoop pkg params rem (idx + 1) n_active cumul' g1 with
          | none => none
          | some (rest, restRows, fa, gf) =>
            some (discounted_profit + rest, row :: restRows, fa, gf)

/-- The dictionary returned by `run_single_simulation`. -/
structure SimResult where
  total_profit : ℚ
  period_data : List PeriodRow
  n_periods : ℕ
deriving DecidableEq

/-- `run_single_simulation` from monte_carlo.py: initial acquisition, then
`max(1, T_days // max(1, validity_days))` validity periods when renewal is
enabled (exactly 1 otherwise), simulated by `simLoop`. -/
def run_single_simulation (pkg : PackageSpec) (params : SimParams) (g : RNG) :
    Option SimResult :=
  let (n_active, g1) := _compute_acquisition pkg params g
  let n_periods :=
    if params.enable_renewal = true then max 1 (params.T_days / max 1 pkg.validity_days)
    else 1
  (simLoop pkg params n_periods 0 n_active 0 g1).map fun tr =>
    ⟨tr.1, tr.2.1, tr.2.1.length⟩

/-- Sequence a list of optional results; `none` if any element is `none`
(models joblib's fail-fast propagation of a replicate exception). -/
def seqOption {α : Type} : List (Option α) → Option (List α)
  | [] => some []
  | none :: _ => none
  | some x :: os => (seqOption os).map fun xs => x :: xs

/-- Profit-sample mean (`profit_samples.mean()`, ddof 0). -/
def listMean (xs : List ℚ) : ℚ :=
  xs.sum / (xs.length : ℚ)

/-- Population variance (`profit_samples.var()`, ddof 0). -/
def listVar (xs : List ℚ) : ℚ :=
  ((xs.map fun x => (x - listMean xs) ^ 2).sum) / (xs.length : ℚ)

/-- The sample range used by `np.histogram(profit_samples, bins=50)`:
`(min, max)` of the data, widened to `(v - 0.5, v + 0.5)` when all samples
are equal, and `(0, 1)` for empty data. -/
def histRange : List ℚ → ℚ × ℚ
  | [] => (0, 1)
  | x :: rest =>
    let lo := rest.foldl min x
    let hi := rest.foldl max x
    if lo = hi then (lo - 1/2, hi + 1/2) else (lo, hi)

/-- The 51 equally spaced bin edges of `np.histogram(…, bins=50)`. -/
def histEdges (lo hi : ℚ) : List ℚ :=
  (List.range 51).map fun i => lo + (hi - lo) * (i : ℚ) / 50

/-- The 50 bin counts of `np.histogram(…, bins=50)`: each bin is
left-closed/right-open except the last, which is closed. -/
def histCounts (xs : List ℚ) (lo hi : ℚ) : List ℕ :=
  (List.range 50).map fun b =>
    let l := lo + (hi - lo) * (b : ℚ) / 50
    let r := lo + (hi - lo) * ((b : ℚ) + 1) / 50
    (xs.filter fun x =>
      decide (l ≤ x) && (if b = 49 then decide (x ≤ r) else decide (x < r))).length

/-- One row of `mean_period_data` built by `run_monte_carlo`: the averages
over the replicates whose `period_data` reaches the period.  `active_users`
is `int(np.mean(...))`, i.e. the floor of the (non-negative) mean. -/
structure PeriodAvg where
  period : ℕ
  active_users : ℕ
  revenue : ℚ
  cost : ℚ
  profit : ℚ
  cumulative_profit : ℚ
deriving DecidableEq

/-- The period-breakdown loop of `run_monte_carlo` (lines 420-445): for each
period index below `maxP`, average over exactly those replicates whose
`period_data` reaches it; produce no row when no replicate does. -/
def meanPeriodData (results : List SimResult) (maxP : ℕ) : List PeriodAvg :=
  (List.range maxP).filterMap fun p =>
    let rows := results.filterMap fun r => r.period_data.get? p
    if rows.length = 0 then none
    else some
      { period := p + 1
        active_users := (rows.map PeriodRow.active_users).sum / rows.length
        revenue := listMean (rows.map PeriodRow.revenue)
        cost := listMean (rows.map PeriodRow.cost)
        profit := listMean (rows.map PeriodRow.profit)
        cumulative_profit := listMean (rows.map PeriodRow.cumulative_profit) }

/-- The rational core of the dictionary returned by `run_monte_carlo`.  The
real-valued entries `std`, `ci_lower`, `ci_upper` of the Python dictionary
are exact functions of these fields and are provided as the derived views
`MCResult.stdR` / `ciHalfR` / `ciLowerR` / `ciUpperR` below. -/
structure MCResult where
  expected_profit : ℚ
  variance : ℚ
  risk_adjusted_profit : ℚ
  profit_samples : List ℚ
  profit_hist_counts : List ℕ
  profit_hist_bins : List ℚ
  convergence_data : List ℚ
  mean_period_data : List PeriodAvg
  total_periods : ℕ
  n_simulations_run : ℕ
  seed_used : ℕ
deriving DecidableEq

/-- The reduction step of `run_monte_carlo` (lines 402-465), a deterministic
fold over the replicate results collected in replicate-index order. -/
def aggregateResults (params : SimParams) (M s : ℕ) (results : List SimResult) : MCResult :=
  let profit_samples := results.map SimResult.total_profit
  let mean_profit := listMean profit_samples
  let var_profit := listVar profit_samples
  let lohi := histRange profit_samples
  let max_periods := (results.map SimResult.n_periods).foldl max 0
  { expected_profit := mean_profit
    variance := var_profit
    risk_adjusted_profit := mean_profit - params.risk_lambda * var_profit
    profit_samples := profit_samples.take 2000
    profit_hist_counts := histCounts profit_samples lohi.1 lohi.2
    profit_hist_bins := histEdges lohi.1 lohi.2
    convergence_data := (List.range profit_samples.length).map fun i =>
      listMean (profit_samples.take (i + 1))
    mean_period_data := meanPeriodData results max_periods
    total_periods := max_periods
    n_simulations_run := M
    seed_used := s }

/-- The replicate phase of `run_monte_carlo`: replicate `i` runs
`run_single_simulation` on the generator seeded `base_seed + i * 997`, and
the results are collected in replicate-index order 0..M-1 (joblib's
`Parallel` returns outputs in the order of its input iterable regardless of
completion order).  `rngOf` models `np.random.default_rng` as a function
from seed to generator. -/
def replicateResults (rngOf : ℕ → RNG) (pkg : PackageSpec) (params : SimParams)
    (M base_seed : ℕ) : Option (List SimResult) :=
  seqOption ((List.range M).map fun i =>
    run_single_simulation pkg params (rngOf (base_seed + i * 997)))

/-- `run_monte_carlo` from monte_carlo.py.  `M = 0` raises in Python (the
`max()` over an empty generator), modelled as `none`. -/
def run_monte_carlo (rngOf : ℕ → RNG) (pkg : PackageSpec) (params : SimParams)
    (M base_seed : ℕ) : Option MCResult :=
  if M = 0 then none
  else (replicateResults rngOf pkg params M base_seed).map
    (aggregateResults params M base_seed)

/-- The `std` entry of the `run_monte_carlo` dictionary:
`profit_samples.std() = sqrt(variance)`. -/
noncomputable def MCResult.stdR (r : MCResult) : ℝ :=
  Real.sqrt (r.variance : ℝ)

/-- The `ci_half` value of `run_monte_carlo` line 408:
`1.96 * std / sqrt(M)`. -/
noncomputable def MCResult.ciHalfR (r : MCResult) : ℝ :=
  (196 / 100 : ℝ) * r.stdR / Real.sqrt (r.n_simulations_run : ℝ)

/-- The `ci_lower` entry of the `run_monte_carlo` dictionary. -/
noncomputable def MCResult.ciLowerR (r : MCResult) : ℝ :=
  (r.expected_profit : ℝ) - r.ciHalfR

/-- The `ci_upper` entry of the `run_monte_carlo` dictionary. -/
noncomputable def MCResult.ciUpperR (r : MCResult) : ℝ :=
  (r.expected_profit : ℝ) + r.ciHalfR

/-- Stable insertion of `x` into a list sorted by descending `key`: `x` goes
after every element whose key is at least as large, reproducing the stable
behaviour of Python's `list.sort(key=…, reverse=True)`. -/
def insertByDesc {α : Type} (key : α → ℚ) (x : α) : List α → List α
  | [] => [x]
  | y :: ys => if key x ≤ key y then y :: insertByDesc key x ys else x :: y :: ys

/-- Stable sort by descending `key` (Python `sort(key=…, reverse=True)`). -/
def sortByDesc {α : Type} (key : α → ℚ) : List α → List α
  | [] => []
  | x :: xs => insertByDesc key x (sortByDesc key xs)

/-- One `{parameter, gradient, abs_gradient}` record of compute_sensitivity
(sensitivity.py). -/
structure SensRecord where
  parameter : String
  gradient : ℚ
  abs_gradient : ℚ
deriving DecidableEq

/-- The thirteen differentiation targets of `compute_sensitivity`
(sensitivity.py `param_deltas`), in dictionary insertion order. -/
inductive SensTarget
  | price | data_gb | voice_min | validity_days
  | beta_data | beta_voice | beta_price | beta_validity
  | c_gb_3g | c_gb_4g | c_gb_5g | c_min | base_renewal_rate
deriving DecidableEq

/-- The `param_deltas` key list in insertion order. -/
def sensTargets : List SensTarget :=
  [.price, .data_gb, .voice_min, .validity_days,
   .beta_data, .beta_voice, .beta_price, .beta_validity,
   .c_gb_3g, .c_gb_4g, .c_gb_5g, .c_min, .base_renewal_rate]

/-- The parameter name reported for each target. -/
def targetName : SensTarget → String
  | .price => "price"
  | .data_gb => "data_gb"
  | .voice_min => "voice_min"
  | .validity_days => "validity_days"
  | .beta_data => "beta_data"
  | .beta_voice => "beta_voice"
  | .beta_price => "beta_price"
  | .beta_validity => "beta_validity"
  | .c_gb_3g => "c_gb_3g"
  | .c_gb_4g => "c_gb_4g"
  | .c_gb_5g => "c_gb_5g"
  | .c_min => "c_min"
  | .base_renewal_rate => "base_renewal_rate"

/-- The `param_deltas` step sizes (`validity_days` is the integer step 1). -/
def targetDelta : SensTarget → ℚ
  | .price => 1
  | .data_gb => 1/10
  | .voice_min => 5
  | .validity_days => 1
  | .beta_data => 1/100
  | .beta_voice => 1/100
  | .beta_price => 1/200
  | .beta_validity => 1/100
  | .c_gb_3g => 1/2
  | .c_gb_4g => 1/2
  | .c_gb_5g => 1/2
  | .c_min => 1/10
  | .base_renewal_rate => 1/20

/-- The package evaluated on the plus side of the central difference
(sensitivity.py lines 60-88): package-level continuous fields get
`value + delta` (no clamp); `validity_days` gets `max(1, v + 1)`;
`SimParams`-level targets leave the package unchanged. -/
def pkgPlus : SensTarget → PackageSpec → PackageSpec
  | .price, p => { p with price := p.price + 1 }
  | .data_gb, p => { p with data_gb := p.data_gb + 1/10 }
  | .voice_min, p => { p with voice_min := p.voice_min + 5 }
  | .validity_days, p => { p with validity_days := max 1 (p.validity_days + 1) }
  | _, p => p

/-- The package evaluated on the minus side: package-level continuous fields
are clamped, `max(0.01, value - delta)` (sensitivity.py line 87);
`validity_days` gets `max(1, v - 1)`. -/
def pkgMinus : SensTarget → PackageSpec → PackageSpec
  | .price, p => { p with price := max (1/100) (p.price - 1) }
  | .data_gb, p => { p with data_gb := max (1/100) (p.data_gb - 1/10) }
  | .voice_min, p => { p with voice_min := max (1/100) (p.voice_min - 5) }
  | .validity_days, p => { p with validity_days := max 1 (p.validity_days - 1) }
  | _, p => p

/-- The parameter set on the plus side (`_perturb(params, field, +delta)`,
unclamped); package-level targets leave the parameters unchanged. -/
def paramsPlus : SensTarget → SimParams → SimParams
  | .beta_data, q => { q with beta_data := q.beta_data + 1/100 }
  | .beta_voice, q => { q with beta_voice := q.beta_voice + 1/100 }
  | .beta_price, q => { q with beta_price := q.beta_price + 1/200 }
  | .beta_validity, q => { q with beta_validity := q.beta_validity + 1/100 }
  | .c_gb_3g, q => { q with c_gb_3g := q.c_gb_3g + 1/2 }
  | .c_gb_4g, q => { q with c_gb_4g := q.c_gb_4g + 1/2 }
  | .c_gb_5g, q => { q with c_gb_5g := q.c_gb_5g + 1/2 }
  | .c_min, q => { q with c_min := q.c_min + 1/10 }
  | .base_renewal_rate, q => { q with base_renewal_rate := q.base_renewal_rate + 1/20 }
  | _, q => q

/-- The parameter set on the minus side (`_perturb(params, field, -delta)`,
unclamped). -/
def paramsMinus : SensTarget → SimParams → SimParams
  | .beta_data, q => { q with beta_data := q.beta_data - 1/100 }
  | .beta_voice, q => { q with beta_voice := q.beta_voice - 1/100 }
  | .beta_price, q => { q with beta_price := q.beta_price - 1/200 }
  | .beta_validity, q => { q with beta_validity := q.beta_validity - 1/100 }
  | .c_gb_3g, q => { q with c_gb_3g := q.c_gb_3g - 1/2 }
  | .c_gb_4g, q => { q with c_gb_4g := q.c_gb_4g - 1/2 }
  | .c_gb_5g, q => { q with c_gb_5g := q.c_gb_5g - 1/2 }
  | .c_min, q => { q with c_min := q.c_min - 1/10 }
  | .base_renewal_rate, q => { q with base_renewal_rate := q.base_renewal_rate - 1/20 }
  | _, q => q

/-- The central-difference gradient for one target.  `E` is the oracle for
`run_monte_carlo(pkg, params, M, seed)["expected_profit"]` (the `_eval`
helper of sensitivity.py); both sides are evaluated at the same `M` and the
same `base_seed`.  `validity_days` divides by `2.0`, every other target by
`2 * delta`. -/
def targetGradient (E : PackageSpec → SimParams → ℕ → ℕ → ℚ)
    (pkg : PackageSpec) (params : SimParams) (M base_seed : ℕ) (t : SensTarget) : ℚ :=
  let e_plus := E (pkgPlus t pkg) (paramsPlus t params) M base_seed
  let e_minus := E (pkgMinus t pkg) (paramsMinus t params) M base_seed
  match t with
  | .validity_days => (e_plus - e_minus) / 2
  | _ => (e_plus - e_minus) / (2 * targetDelta t)

/-- The unsorted record list built by the main loop of
`compute_sensitivity`. -/
def sensRecords (E : PackageSpec → SimParams → ℕ → ℕ → ℚ)
    (pkg : PackageSpec) (params : SimParams) (M base_seed : ℕ) : List SensRecord :=
  sensTargets.map fun t =>
    ⟨targetName t, targetGradient E pkg params M base_seed t,
      |targetGradient E pkg params M base_seed t|⟩

/-- `compute_sensitivity` from sensitivity.py, parameterised by the
`run_monte_carlo` expected-profit oracle `E`: build the thirteen
central-difference records, then sort by descending absolute gradient. -/
def compute_sensitivity (E : PackageSpec → SimParams → ℕ → ℕ → ℚ)
    (pkg : PackageSpec) (params : SimParams) (M base_seed : ℕ) : List SensRecord :=
  sortByDesc SensRecord.abs_gradient (sensRecords E pkg params M base_seed)

/-- The failure modes of the `/optimize` code path in bayesian_opt.py.
`noneTypeCrash` is the `TypeError` raised at line 196 when
`global_best_result` is still `None` (all tiers failed) and the tuple
unpacking dereferences it.  `searchExhausted` is modelled from the spec:
the `SearchExhausted` classification that §7 requires when every tier
fails; the code contains no such classification. -/
inductive BOFault
  | noneTypeCrash
  | searchExhausted
deriving DecidableEq

/-- The dictionary returned by `bayesian_optimize` (bayesian_opt.py lines
202-215), restricted to the fields the orchestration logic determines
(the per-tier evaluation traces live inside the opaque minimizer loop and
are orthogonal to the control flow verified here).  Note the source stores
the best risk-adjusted profit under the key `max_expected_profit`. -/
structure BOOutcome where
  optimal_package : PackageSpec
  max_expected_profit : ℚ
  full_mc_result : MCResult
  offers : List (PackageSpec × MCResult)
deriving DecidableEq

/-- The `global_best` tracking of bayesian_opt.py (lines 60-61, 183-185):
starting from `-inf` (`none`), a tier replaces the incumbent only when its
full-MC risk-adjusted profit is strictly greater. -/
def selectBest (offers : List (PackageSpec × MCResult)) : Option (PackageSpec × MCResult) :=
  offers.foldl
    (fun best o =>
      match best with
      | none => some o
      | some b => if b.2.risk_adjusted_profit < o.2.risk_adjusted_profit then some o else some b)
    none

/-- The post-loop result assembly of `bayesian_optimize` (lines 190-215).
`tierResults` holds, in tier order (Budget, Standard, Premium), `none` for
a tier whose `try` block raised and `some (pkg, full_mc)` for a successful
tier.  Successful tiers form `all_offers`; the global best is selected by
strict improvement; when no tier set a global best the code falls back to
the first offer if one exists and otherwise unpacks `None` — the
`noneTypeCrash`.  Offers are sorted by descending risk-adjusted profit. -/
def bayesian_optimize_select (tierResults : List (Option (PackageSpec × MCResult))) :
    Except BOFault BOOutcome :=
  let all_offers := tierResults.filterMap id
  match selectBest all_offers with
  | some best =>
    .ok { optimal_package := { best.1 with label := "Optimal" }
          max_expected_profit := best.2.risk_adjusted_profit
          full_mc_result := best.2
          offers := sortByDesc (fun o => o.2.risk_adjusted_profit) all_offers }
  | none =>
    match all_offers with
    | o :: _ =>
      .ok { optimal_package := { o.1 with label := "Optimal" }
            max_expected_profit := o.2.risk_adjusted_profit
            full_mc_result := o.2
            offers := sortByDesc (fun o => o.2.risk_adjusted_profit) all_offers }
    | [] => .error .noneTypeCrash

/-- `bayesian_optimize` from bayesian_opt.py as seen from its failure
handling: `tierBest i` is the opaque `gp_minimize` outcome for tier `i`
(`none` when it raised inside the tier's `try`); a successful tier is
re-evaluated with the full replicate count through `run_monte_carlo` (a
failure there is also caught by the tier's `try`). -/
def bayesian_optimize (tierBest : Fin 3 → Option PackageSpec) (rngOf : ℕ → RNG)
    (params : SimParams) (M base_seed : ℕ) : Except BOFault BOOutcome :=
  bayesian_optimize_select ((List.finRange 3).map fun i =>
    (tierBest i).bind fun p =>
      (run_monte_carlo rngOf p params M base_seed).map fun mc => (p, mc))

/-- The `objective` closure of `bayesian_optimize` (bayesian_opt.py lines
95-131): candidate `x = (price, data_gb, voice_min, validity_days)` is
evaluated by a lighter `run_monte_carlo` call with `M' = max(50, M // 3)`
and the deterministic candidate seed `base_seed + counter * 997`, and the
objective value handed to the minimizer is the negated risk-adjusted
profit. -/
def boObjective (rngOf : ℕ → RNG) (params : SimParams) (M base_seed counter : ℕ)
    (price data_gb voice_min : ℚ) (validity_days : ℕ) : Option ℚ :=
  (run_monte_carlo rngOf
      ⟨data_gb, voice_min, validity_days, price, "BO"⟩ params
      (max 50 (M / 3)) (base_seed + counter * 997)).map
    fun mc => -mc.risk_adjusted_profit

/-- The cross-field validation performed by the live request model
(src/backend/simulator/models.py, `SimulateRequest`, the class main.py
imports): every field is a plain typed pydantic field with a default and
there is no validator of any kind, so every rational/integer assignment —
including network shares summing to zero or below — is accepted.  (The
unused sibling model in model_classes.py declares a `check_pct_sum`
validator, but main.py does not import it.) -/
def simulateRequestValidates (_params : SimParams) (_pkg : PackageSpec) : Bool :=
  true

/-- Witness generator family: every seed gives the all-zero oracle streams
(a realisable outcome: every binomial draw returns 0, every continuous
draw returns its mean-零 representative). -/
def wRngOf : ℕ → RNG := fun _ => ⟨fun _ => 0, fun _ => 0, 0⟩

/-- Witness package: a free zero-allowance package. -/
def wPkg : PackageSpec := ⟨0, 0, 7, 0, "W"⟩

/-- Witness parameters: tiny deterministic market, renewal disabled. -/
def wParams : SimParams :=
  { N0 := 0, T_days := 90, discount_rate := 0
    beta_data := 0, beta_voice := 0, beta_price := 0, beta_validity := 0, sigma := 1
    use_mixture := true
    mu_light := 0, sigma_light := 1, pi_light := 0
    mu_medium := 0, sigma_medium := 1, pi_medium := 0
    mu_heavy := 0, sigma_heavy := 1
    mu_voice := 0, sigma_voice := 1
    c_gb_3g := 2, c_gb_4g := 5, c_gb_5g := 10
    pct_3g := 1, pct_4g := 0, pct_5g := 0, c_min := 1/2
    p_over_data := 15, p_over_voice := 3/2
    enable_renewal := false, base_renewal_rate := 3/5, renewal_decay := 1/20
    risk_lambda := 0 }

/-- Witness parameters with renewal enabled. -/
def wParamsR : SimParams :=
  { wParams with enable_renewal := true }

/-- The replicate result of the witness configuration. -/
def wSim : SimResult :=
  ⟨0, [⟨1, 0, 0, 0, 0, 0⟩], 1⟩

/-- The aggregate of the witness configuration (`M = 1`, seed 5). -/
def wMC : MCResult :=
  { expected_profit := 0
    variance := 0
    risk_adjusted_profit := 0
    profit_samples := [0]
    profit_hist_counts := (List.range 50).map fun b => if b = 25 then 1 else 0
    profit_hist_bins := (List.range 51).map fun i => (i : ℚ) / 50 - 1/2
    convergence_data := [0]
    mean_period_data := [⟨1, 0, 0, 0, 0, 0⟩]
    total_periods := 1
    n_simulations_run := 1
    seed_used := 5 }

attribute [local semireducible] Rat.add Rat.sub Rat.mul Rat.inv

/-- The live `/simulate` request of test_sim.py / models.py defaults with the
network-share triple zeroed out: `pct_3g = pct_4g = pct_5g = 0`. -/
def c2Params : SimParams :=
  { N0 := 10000, T_days := 90, discount_rate := 1/100
    beta_data := 1/2, beta_voice := 3/10, beta_price := 1/20, beta_validity := 1/5, sigma := 1
    use_mixture := true
    mu_light := -1/2, sigma_light := 1/2, pi_light := 2/5
    mu_medium := 1/2, sigma_medium := 3/5, pi_medium := 2/5
    mu_heavy := 3/2, sigma_heavy := 7/10
    mu_voice := 3, sigma_voice := 4/5
    c_gb_3g := 2, c_gb_4g := 5, c_gb_5g := 10
    pct_3g := 0, pct_4g := 0, pct_5g := 0, c_min := 1/2
    p_over_data := 15, p_over_voice := 3/2
    enable_renewal := true, base_renewal_rate := 3/5, renewal_decay := 1/20
    risk_lambda := 1/2 }

/-- The default package of models.py (`data_gb=1, voice_min=0, validity=7,
price=100`). -/
def c2Pkg : PackageSpec := ⟨1, 0, 7, 100, "Standard"⟩

/-- A generator family under which the acquisition draw returns 1 buyer
(realisable: `Binomial(10000, p)` with `p ∈ [0.001, 0.999]` can return 1). -/
def c2RngHit : ℕ → RNG := fun _ => ⟨fun _ => 1, fun _ => 0, 0⟩

/-- A generator family under which the acquisition draw returns 0 buyers. -/
def c2RngMiss : ℕ → RNG := fun _ => ⟨fun _ => 0, fun _ => 0, 0⟩

/-- Counterexample generator family for the convergence-trace claim: seed 0
draws one buyer, every other seed none (each a realisable binomial
outcome). -/
def c5Rng : ℕ → RNG := fun sd => ⟨fun _ => if sd = 0 then 1 else 0, fun _ => 0, 0⟩

/-- A one-customer market selling a free-allowance package at price 1. -/
def c5Pkg : PackageSpec := ⟨0, 0, 7, 1, "C"⟩

/-- Parameters for the convergence-trace counterexample: one potential
customer, no discounting, renewal disabled. -/
def c5Params : SimParams :=
  { wParams with N0 := 1 }

/-- A priced zero-allowance package for the overage-revenue witness. -/
def c6Pkg : PackageSpec := ⟨0, 0, 7, 5, "Z"⟩

theorem seqOption_eq_map_some {α : Type} (l : List (Option α)) (xs : List α)
    (h : seqOption l = some xs) : l = xs.map some := by
  induction l generalizing xs with
  | nil =>
    simp [seqOption] at h
    subst h
    rfl
  | cons o os ih =>
    cases o with
    | none => simp [seqOption] at h
    | some x =>
      simp only [seqOption, Option.map_eq_some'] at h
      obtain ⟨ys, hys, rfl⟩ := h
      simp [ih ys hys]

theorem mem_insertByDesc {α : Type} (key : α → ℚ) (a x : α) (l : List α) :
    a ∈ insertByDesc key x l ↔ a = x ∨ a ∈ l := by
  induction l with
  | nil => simp [insertByDesc]
  | cons y ys ih =>
    by_cases hk : key x ≤ key y
    · simp only [insertByDesc, if_pos hk, List.mem_cons, ih]
      tauto
    · simp only [insertByDesc, if_neg hk, List.mem_cons]

theorem pairwise_insertByDesc {α : Type} (key : α → ℚ) (x : α) (l : List α)
    (hl : l.Pairwise fun a b => key b ≤ key a) :
    (insertByDesc key x l).Pairwise fun a b => key b ≤ key a := by
  induction l with
  | nil => simp [insertByDesc]
  | cons y ys ih =>
    rw [List.pairwise_cons] at hl
    by_cases hk : key x ≤ key y
    · rw [insertByDesc, if_pos hk, List.pairwise_cons]
      refine ⟨fun b hb => ?_, ih hl.2⟩
      rcases (mem_insertByDesc key b x ys).1 hb with hbx | hby
      · exact hbx ▸ hk
      · exact hl.1 b hby
    · rw [insertByDesc, if_neg hk, List.pairwise_cons]
      refine ⟨fun b hb => ?_, List.pairwise_cons.2 hl⟩
      rcases List.mem_cons.1 hb with hby | hbys
      · exact hby ▸ le_of_lt (lt_of_not_le hk)
      · exact le_trans (hl.1 b hbys) (le_of_lt (lt_of_not_le hk))

theorem pairwise_sortByDesc {α : Type} (key : α → ℚ) (l : List α) :
    (sortByDesc key l).Pairwise fun a b => key b ≤ key a := by
  induction l with
  | nil => simp [sortByDesc]
  | cons x xs ih => exact pairwise_insertByDesc key x _ ih

theorem mem_sortByDesc {α : Type} (key : α → ℚ) (a : α) (l : List α) :
    a ∈ sortByDesc key l ↔ a ∈ l := by
  induction l with
  | nil => simp [sortByDesc]
  | cons x xs ih =>
    rw [sortByDesc, mem_insertByDesc, ih, List.mem_cons]

theorem run_monte_carlo_inv (rngOf : ℕ → RNG) (pkg : PackageSpec) (params : SimParams)
    (M s : ℕ) (r : MCResult) (h : run_monte_carlo rngOf pkg params M s = some r) :
    M ≠ 0 ∧ ∃ rs, replicateResults rngOf pkg params M s = some rs
      ∧ r = aggregateResults params M s rs := by
  by_cases hM : M = 0
  · rw [run_monte_carlo, if_pos hM] at h
    exact absurd h (by simp)
  · rw [run_monte_carlo, if_neg hM, Option.map_eq_some'] at h
    obtain ⟨rs, hrs, hr⟩ := h
    exact ⟨hM, rs, hrs, hr.symm⟩

theorem replicateResults_get (rngOf : ℕ → RNG) (pkg : PackageSpec) (params : SimParams)
    (M s : ℕ) (rs : List SimResult) (h : replicateResults rngOf pkg params M s = some rs) :
    rs.length = M ∧ ∀ i, i < M →
      rs.get? i = run_single_simulation pkg params (rngOf (s + i * 997)) := by
  have hmap := seqOption_eq_map_some _ _ h
  have hlen : rs.length = M := by
    have := congrArg List.length hmap
    simpa using this.symm
  refine ⟨hlen, fun i hi => ?_⟩
  have h1 : ((List.range M).map fun j =>
      run_single_simulation pkg params (rngOf (s + j * 997))).get? i
      = some (run_single_simulation pkg params (rngOf (s + i * 997))) := by
    rw [List.get?_map, List.get?_range hi]
    rfl
  rw [hmap, List.get?_map] at h1
  cases hri : rs.get? i with
  | none => rw [hri] at h1; simp at h1
  | some y =>
    rw [hri] at h1
    simp only [Option.map_some', Option.some.injEq] at h1
    exact h1

theorem simLoop_spec (pkg : PackageSpec) (params : SimParams) :
    ∀ (rem idx n_active : ℕ) (cumul : ℚ) (g : RNG) (tot : ℚ) (rows : List PeriodRow)
      (fa : ℕ) (gf : RNG),
      simLoop pkg params rem idx n_active cumul g = some (tot, rows, fa, gf) →
        rows.length ≤ rem
      ∧ (0 < rem → rows ≠ [])
      ∧ (∀ row ∈ rows, row.active_users ≤ n_active)
      ∧ (∀ row ∈ rows.head?, row.active_users = n_active)
      ∧ List.Chain' (fun a b => b.active_users ≤ a.active_users) rows
      ∧ (params.enable_renewal = true → ∀ row ∈ rows.dropLast, 0 < row.active_users)
      ∧ (rows.length < rem → fa = 0) := by
  intro rem
  induction rem with
  | zero =>
    intro idx n_active cumul g tot rows fa gf h
    simp only [simLoop, Option.some.injEq, Prod.mk.injEq] at h
    obtain ⟨-, hrows, -, -⟩ := h
    subst hrows
    simp
  | succ rem ih =>
    intro idx n_active cumul g tot rows fa gf h
    rw [simLoop] at h
    cases hp : _run_single_period n_active pkg params g with
    | none => rw [hp] at h; simp at h
    | some out =>
      obtain ⟨revenue, cost, profit, nret, g1⟩ := out
      rw [hp] at h
      dsimp only at h
      by_cases hdf : ((1 + params.discount_rate) ^ ((idx + 1) * pkg.validity_days) : ℚ) = 0
      · rw [if_pos hdf] at h; simp at h
      · rw [if_neg hdf] at h
        by_cases hren : params.enable_renewal = true ∧ 0 < rem
        · rw [if_pos hren] at h
          rcases hb : g1.binomial n_active with ⟨nA, g2⟩
          rw [hb] at h
          have hbmin : nA = min (g1.ints g1.ctr) n_active ∧ g2 = g1.advance 1 := by
            rw [RNG.binomial] at hb
            exact ⟨(Prod.mk.injEq _ _ _ _ ▸ hb.symm).1, (Prod.mk.injEq _ _ _ _ ▸ hb.symm).2⟩
          cases nA with
          | zero =>
            dsimp only at h
            simp only [Option.some.injEq, Prod.mk.injEq] at h
            obtain ⟨-, hrows, hfa, -⟩ := h
            subst hrows
            subst hfa
            refine ⟨by simp, by simp, by simp, by simp, by simp, by simp, fun _ => rfl⟩
          | succ k =>
            have hkle : k + 1 ≤ n_active := by
              rw [hbmin.1]
              exact Nat.min_le_right _ _
            dsimp only at h
            cases hrec : simLoop pkg params rem (idx + 1) (k + 1) (cumul + profit) g2 with
            | none => rw [hrec] at h; simp at h
            | some pr =>
              obtain ⟨rest, restRows, fa2, gf2⟩ := pr
              rw [hrec] at h
              simp only [Option.some.injEq, Prod.mk.injEq] at h
              obtain ⟨-, hrows, hfa, -⟩ := h
              subst hrows
              subst hfa
              obtain ⟨ihlen, ihne, ihle, ihhead, ihchain, ihpos, ihstop⟩ :=
                ih (idx + 1) (k + 1) (cumul + profit) g2 rest restRows fa2 gf2 hrec
              refine ⟨Nat.succ_le_succ ihlen, fun _ => by simp, ?_, by simp, ?_, ?_, ?_⟩
              · intro row hrow
                rcases List.mem_cons.1 hrow with hr | hr
                · subst hr; exact le_refl _
                · exact le_trans (ihle row hr) hkle
              · refine List.chain'_cons'.2 ⟨fun b hb2 => ?_, ihchain⟩
                have := ihhead b hb2
                simp only [this]
                exact le_trans hkle (le_refl _)
              · intro henable row hrow
                have hne : restRows ≠ [] := ihne hren.2
                cases restRows with
                | nil => exact absurd rfl hne
                | cons r0 rs0 =>
                  rw [List.dropLast_cons₂] at hrow
                  rcases List.mem_cons.1 hrow with hr | hr
                  · subst hr
                    exact lt_of_lt_of_le (Nat.succ_pos k) hkle
                  · exact ihpos henable row hr
              · intro hlt
                exact ihstop (Nat.succ_lt_succ_iff.1 hlt)
        · rw [if_neg hren] at h
          cases hrec : simLoop pkg params rem (idx + 1) n_active (cumul + profit) g1 with
          | none => rw [hrec] at h; simp at h
          | some pr =>
            obtain ⟨rest, restRows, fa2, gf2⟩ := pr
            rw [hrec] at h
            simp only [Option.some.injEq, Prod.mk.injEq] at h
            obtain ⟨-, hrows, hfa, -⟩ := h
            subst hrows
            subst hfa
            obtain ⟨ihlen, ihne, ihle, ihhead, ihchain, ihpos, ihstop⟩ :=
              ih (idx + 1) n_active (cumul + profit) g1 rest restRows fa2 gf2 hrec
            refine ⟨Nat.succ_le_succ ihlen, fun _ => by simp, ?_, by simp, ?_, ?_, ?_⟩
            · intro row hrow
              rcases List.mem_cons.1 hrow with hr | hr
              · subst hr; exact le_refl _
              · exact ihle row hr
            · refine List.chain'_cons'.2 ⟨fun b hb2 => ?_, ihchain⟩
              have := ihhead b hb2
              simp only [this]
              exact le_refl _
            · intro henable row hrow
              have hrem0 : rem = 0 := by
                by_contra hne0
                exact hren ⟨henable, Nat.pos_of_ne_zero hne0⟩
              have : restRows = [] := by
                subst hrem0
                exact List.eq_nil_of_length_eq_zero (Nat.le_zero.1 ihlen)
              subst this
              simp at hrow
            · intro hlt
              exact ihstop (Nat.succ_lt_succ_iff.1 hlt)

theorem run_single_simulation_spec (pkg : PackageSpec) (params : SimParams) (g : RNG)
    (r : SimResult) (h : run_single_simulation pkg params g = some r) :
    (_compute_acquisition pkg params g).1 ≤ params.N0
  ∧ r.n_periods = r.period_data.length
  ∧ r.period_data.length ≤
      (if params.enable_renewal = true then max 1 (params.T_days / max 1 pkg.validity_days)
       else 1)
  ∧ r.period_data ≠ []
  ∧ (∀ row ∈ r.period_data, row.active_users ≤ (_compute_acquisition pkg params g).1)
  ∧ List.Chain' (fun a b => b.active_users ≤ a.active_users) r.period_data
  ∧ (params.enable_renewal = true → ∀ row ∈ r.period_data.dropLast, 0 < row.active_users)
  ∧ (r.period_data.length <
        (if params.enable_renewal = true then max 1 (params.T_days / max 1 pkg.validity_days)
         else 1) →
      ∃ tot gf, simLoop pkg params
          (if params.enable_renewal = true then max 1 (params.T_days / max 1 pkg.validity_days)
           else 1)
          0 (_compute_acquisition pkg params g).1 0 (_compute_acquisition pkg params g).2
        = some (tot, r.period_data, 0, gf)) := by
  rw [run_single_simulation] at h
  rcases hacq : _compute_acquisition pkg params g with ⟨nA, g1⟩
  rw [hacq] at h
  dsimp only at h
  rw [Option.map_eq_some'] at h
  obtain ⟨tr, htr, hr⟩ := h
  obtain ⟨tot, rows, fa, gf⟩ := tr
  obtain ⟨hlen, hne, hle, -, hchain, hpos, hstop⟩ :=
    simLoop_spec pkg params _ 0 nA 0 g1 tot rows fa gf htr
  have hNA : nA ≤ params.N0 := by
    have : _compute_acquisition pkg params g
        = (min ((g.advance 1).ints (g.advance 1).ctr) params.N0, (g.advance 1).advance 1) := rfl
    rw [this] at hacq
    have := (Prod.mk.injEq _ _ _ _ ▸ hacq).1
    rw [← this]
    exact Nat.min_le_right _ _
  have hper : r.period_data = rows := by rw [← hr]
  have hnper : r.n_periods = rows.length := by rw [← hr]
  dsimp only
  refine ⟨hNA, ?_, ?_, ?_, ?_, ?_, ?_, ?_⟩
  · rw [hper, hnper]
  · rw [hper]
    by_cases he : params.enable_renewal = true
    · rw [if_pos he]
      rw [if_pos he] at hlen
      exact hlen
    · rw [if_neg he]
      rw [if_neg he] at hlen
      exact hlen
  · rw [hper]
    refine hne ?_
    by_cases he : params.enable_renewal = true
    · rw [if_pos he]
      exact lt_of_lt_of_le Nat.one_pos (le_max_left _ _)
    · rw [if_neg he]
      exact Nat.one_pos
  · rw [hper]; exact hle
  · rw [hper]; exact hchain
  · rw [hper]; exact hpos
  · rw [hper]
    intro hlt
    rw [hstop hlt] at htr
    exact ⟨tot, gf, htr⟩

/-- C1: two `run_monte_carlo` calls with the identical
`(offer, parameters, M, base_seed)` tuple return identical results in every
field, because replicate `i` always runs on the generator seeded
`base_seed + i * 997` and the reduction folds the replicate results in
replicate-index order `0..M-1`.  (In the embedding the replicate phase is a
pure function of the tuple — faithful to the seeded numpy generator and to
joblib's order-preserving collection — so the first conjunct is the
determinism statement and the remaining conjuncts exhibit the seed schedule
and the index-ordered reduction that make it hold.) -/
theorem c1_replicate_seed_schedule (rngOf : ℕ → RNG) (pkg : PackageSpec) (params : SimParams)
    (M s : ℕ) (hM : 1 ≤ M) (rs : List SimResult)
    (h : replicateResults rngOf pkg params M s = some rs) :
    run_monte_carlo rngOf pkg params M s = run_monte_carlo rngOf pkg params M s
  ∧ rs.length = M
  ∧ (∀ i, i < M → rs.get? i = run_single_simulation pkg params (rngOf (s + i * 997)))
  ∧ run_monte_carlo rngOf pkg params M s = some (aggregateResults params M s rs) := by
  obtain ⟨hlen, hget⟩ := replicateResults_get rngOf pkg params M s rs h
  refine ⟨rfl, hlen, hget, ?_⟩
  rw [run_monte_carlo, if_neg (by omega), h]
  rfl

/-- Witness for C1 at the concrete configuration `wRngOf`/`wPkg`/`wParams`,
`M = 1`, seed 5. -/
theorem c1_witness :
    run_monte_carlo wRngOf wPkg wParams 1 5 = run_monte_carlo wRngOf wPkg wParams 1 5
  ∧ [wSim].length = 1
  ∧ (∀ i, i < 1 → [wSim].get? i = run_single_simulation wPkg wParams (wRngOf (5 + i * 997)))
  ∧ run_monte_carlo wRngOf wPkg wParams 1 5 = some (aggregateResults wParams 1 5 [wSim]) :=
  c1_replicate_seed_schedule wRngOf wPkg wParams 1 5 (by decide) [wSim] (by decide)

/-- C4: for every `M ≥ 1` and every profit-sample vector, the confidence
interval of `run_monte_carlo` satisfies `half-width = 1.96 · std / sqrt M`
with `std = sqrt variance`, `ci_lower = mean - half-width`,
`ci_upper = mean + half-width`, and `ci_upper - ci_lower = 2 · half-width`. -/
theorem c4_confidence_interval (rngOf : ℕ → RNG) (pkg : PackageSpec) (params : SimParams)
    (M s : ℕ) (hM : 1 ≤ M) (r : MCResult)
    (h : run_monte_carlo rngOf pkg params M s = some r) :
    r.stdR = Real.sqrt (r.variance : ℝ)
  ∧ r.ciHalfR = (196 / 100 : ℝ) * r.stdR / Real.sqrt (M : ℝ)
  ∧ r.ciLowerR = (r.expected_profit : ℝ) - r.ciHalfR
  ∧ r.ciUpperR = (r.expected_profit : ℝ) + r.ciHalfR
  ∧ r.ciUpperR - r.ciLowerR = 2 * r.ciHalfR := by
  obtain ⟨-, rs, -, hr⟩ := run_monte_carlo_inv rngOf pkg params M s r h
  have hn : r.n_simulations_run = M := by rw [hr]; rfl
  refine ⟨rfl, ?_, rfl, rfl, ?_⟩
  · rw [MCResult.ciHalfR, hn]
  · rw [MCResult.ciUpperR, MCResult.ciLowerR]
    ring

/-- Witness for C4 at the concrete configuration (`M = 1`, seed 5,
aggregate `wMC`). -/
theorem c4_witness :
    wMC.stdR = Real.sqrt (wMC.variance : ℝ)
  ∧ wMC.ciHalfR = (196 / 100 : ℝ) * wMC.stdR / Real.sqrt ((1 : ℕ) : ℝ)
  ∧ wMC.ciLowerR = (wMC.expected_profit : ℝ) - wMC.ciHalfR
  ∧ wMC.ciUpperR = (wMC.expected_profit : ℝ) + wMC.ciHalfR
  ∧ wMC.ciUpperR - wMC.ciLowerR = 2 * wMC.ciHalfR :=
  c4_confidence_interval wRngOf wPkg wParams 1 5 (by decide) wMC (by decide)

/-- C5 (amended): for every `M ≥ 1` the convergence trace of
`run_monte_carlo` has length `M`, its `i`-th element is the mean of the
first `i` profit samples (the running mean), and its last element equals
the reported `expected_profit`.  (The original claim's additional
"non-decreasing in sample count" conjunct is refuted by
`c5_counterexample`: a running mean can decrease.) -/
theorem c5_running_mean_trace (rngOf : ℕ → RNG) (pkg : PackageSpec) (params : SimParams)
    (M s : ℕ) (hM : 1 ≤ M) (r : MCResult)
    (h : run_monte_carlo rngOf pkg params M s = some r) :
    r.convergence_data.length = M
  ∧ (∃ rs, replicateResults rngOf pkg params M s = some rs
      ∧ r.convergence_data = (List.range M).map fun i =>
          listMean ((rs.map SimResult.total_profit).take (i + 1)))
  ∧ r.convergence_data.getLast? = some r.expected_profit := by
  obtain ⟨hM0, rs, hrs, hr⟩ := run_monte_carlo_inv rngOf pkg params M s r h
  obtain ⟨hlen, -⟩ := replicateResults_get rngOf pkg params M s rs hrs
  have hps : (rs.map SimResult.total_profit).length = M := by simp [hlen]
  have hconv : r.convergence_data = (List.range M).map fun i =>
      listMean ((rs.map SimResult.total_profit).take (i + 1)) := by
    rw [hr]
    show (List.range (rs.map SimResult.total_profit).length).map _ = _
    rw [hps]
  refine ⟨by rw [hconv]; simp, ⟨rs, hrs, hconv⟩, ?_⟩
  obtain ⟨k, rfl⟩ : ∃ k, M = k + 1 := ⟨M - 1, (Nat.succ_pred_eq_of_pos hM).symm⟩
  rw [hconv, List.range_succ, List.map_append, List.map_cons, List.map_nil,
    List.getLast?_concat]
  have htake : (rs.map SimResult.total_profit).take (k + 1)
      = rs.map SimResult.total_profit := by
    rw [← hps]
    exact List.take_length _
  rw [htake, hr]
  rfl

/-- Counterexample for C5 as stated: at a concrete configuration
(one-customer market, free zero-allowance package at price 1; replicate 0
acquires the customer, replicate 1 does not — both realisable binomial
outcomes) the convergence trace is `[1, 1/2]`, which is decreasing, so the
trace is not non-decreasing in sample count. -/
theorem c5_counterexample :
    (run_monte_carlo c5Rng c5Pkg c5Params 2 0).map MCResult.convergence_data
      = some [1, 1/2]
  ∧ ¬ List.Chain' (fun a b : ℚ => a ≤ b) [(1 : ℚ), 1/2] := by
  refine ⟨by decide, fun hchain => ?_⟩
  exact absurd (List.chain'_cons.1 hchain).1 (by decide)

/-- Witness for C5 (amended) at the concrete configuration (`M = 1`,
seed 5). -/
theorem c5_witness :
    wMC.convergence_data.length = 1
  ∧ (∃ rs, replicateResults wRngOf wPkg wParams 1 5 = some rs
      ∧ wMC.convergence_data = (List.range 1).map fun i =>
          listMean ((rs.map SimResult.total_profit).take (i + 1)))
  ∧ wMC.convergence_data.getLast? = some wMC.expected_profit :=
  c5_running_mean_trace wRngOf wPkg wParams 1 5 (by decide) wMC (by decide)

/-- C6: for every package with `data_gb = 0` and `voice_min = 0` and every
period simulated with `n_active > 0` customers, the period revenue equals
exactly `n_active × price`: no data- or voice-overage revenue is charged,
whatever the usage distributions would draw (the sampling branches are not
even entered). -/
theorem c6_zero_allowance_revenue (n_active : ℕ) (pkg : PackageSpec) (params : SimParams)
    (g : RNG) (h0 : pkg.data_gb = 0) (h1 : pkg.voice_min = 0) (hA : 0 < n_active)
    (hs : (_run_single_period n_active pkg params g).isSome = true) :
    (_run_single_period n_active pkg params g).map (fun out => out.1)
      = some ((n_active : ℚ) * pkg.price) := by
  rw [_run_single_period] at hs ⊢
  rw [if_neg (Nat.pos_iff_ne_zero.1 hA)] at hs ⊢
  rw [h0, h1] at hs ⊢
  rw [if_neg (lt_irrefl (0 : ℚ))] at hs ⊢
  dsimp only at hs ⊢
  rw [if_neg (lt_irrefl (0 : ℚ))] at hs ⊢
  dsimp only at hs ⊢
  cases hc : _compute_network_data_cost (List.replicate n_active 0) params g with
  | none => rw [hc] at hs; simp at hs
  | some out =>
    obtain ⟨dc, g3⟩ := out
    dsimp only
    rw [Option.map_some']
    congr 1
    ring

/-- Witness for C6: three active customers on the priced zero-allowance
package `c6Pkg` yield revenue `3 × 5`. -/
theorem c6_witness :
    (_run_single_period 3 c6Pkg wParams (wRngOf 0)).map (fun out => out.1)
      = some ((3 : ℕ) * c6Pkg.price) :=
  c6_zero_allowance_revenue 3 c6Pkg wParams (wRngOf 0) (by decide) (by decide)
    (by decide) (by decide)

/-- C7: with `validity_days ≥ 1`, a replicate with renewal enabled plans
`max(1, ⌊T_days / validity_days⌋)` validity periods and its `PeriodRow`
sequence has exactly that length unless the active-customer count reaches
zero earlier: the length never exceeds the planned count, it is at least 1,
and whenever it is strictly shorter the underlying period loop of this very
run exited with its `n_active` local equal to 0 (the zero renewal draw that
triggered the break) — and every row except possibly the last has a
positive active count, so no row ever follows a zero-active period.  With
renewal disabled exactly one row is emitted; the reported `n_periods` is
the emitted row count. -/
theorem c7_period_count (pkg : PackageSpec) (params : SimParams) (g : RNG)
    (hv : 1 ≤ pkg.validity_days) (r : SimResult)
    (h : run_single_simulation pkg params g = some r) :
    (params.enable_renewal = true →
        r.period_data.length ≤ max 1 (params.T_days / pkg.validity_days)
      ∧ 1 ≤ r.period_data.length
      ∧ (∀ row ∈ r.period_data.dropLast, 0 < row.active_users)
      ∧ (r.period_data.length < max 1 (params.T_days / pkg.validity_days) →
          ∃ tot gf, simLoop pkg params (max 1 (params.T_days / pkg.validity_days)) 0
              (_compute_acquisition pkg params g).1 0 (_compute_acquisition pkg params g).2
            = some (tot, r.period_data, 0, gf)))
  ∧ (params.enable_renewal = false → r.period_data.length = 1)
  ∧ r.n_periods = r.period_data.length := by
  obtain ⟨-, hnper, hlen, hne, -, -, hpos, hstop⟩ :=
    run_single_simulation_spec pkg params g r h
  have hmax : max 1 pkg.validity_days = pkg.validity_days := Nat.max_eq_right hv
  refine ⟨fun he => ?_, fun he => ?_, hnper⟩
  · rw [if_pos he, hmax] at hlen
    rw [if_pos he, hmax] at hstop
    exact ⟨hlen, List.length_pos.2 hne, hpos he, hstop⟩
  · rw [he] at hlen
    simp only [Bool.false_eq_true, if_false] at hlen
    exact Nat.le_antisymm hlen (List.length_pos.2 hne)

/-- Witness for C7 at the renewal-enabled configuration `wParamsR`
(horizon 90 days, validity 7 days, zero-acquisition draw: one row,
strictly fewer than the 12 planned periods, with the loop exiting at a
zero active count). -/
theorem c7_witness :
    (wParamsR.enable_renewal = true →
        wSim.period_data.length ≤ max 1 (wParamsR.T_days / wPkg.validity_days)
      ∧ 1 ≤ wSim.period_data.length
      ∧ (∀ row ∈ wSim.period_data.dropLast, 0 < row.active_users)
      ∧ (wSim.period_data.length < max 1 (wParamsR.T_days / wPkg.validity_days) →
          ∃ tot gf, simLoop wPkg wParamsR (max 1 (wParamsR.T_days / wPkg.validity_days)) 0
              (_compute_acquisition wPkg wParamsR (wRngOf 5)).1 0
              (_compute_acquisition wPkg wParamsR (wRngOf 5)).2
            = some (tot, wSim.period_data, 0, gf)))
  ∧ (wParamsR.enable_renewal = false → wSim.period_data.length = 1)
  ∧ wSim.n_periods = wSim.period_data.length :=
  c7_period_count wPkg wParamsR (wRngOf 5) (by decide) wSim (by decide)

/-- C10: within every replicate the active-customer count is non-increasing
across consecutive periods (each renewal draw returns at most the entering
count) and never exceeds the market size `N0` (the acquisition draw returns
at most `N0`); hence every `PeriodRow`'s `active_users` lies in `[0, N0]`. -/
theorem c10_active_users_bounds (pkg : PackageSpec) (params : SimParams) (g : RNG)
    (r : SimResult) (h : run_single_simulation pkg params g = some r) :
    List.Chain' (fun a b => b.active_users ≤ a.active_users) r.period_data
  ∧ ∀ row ∈ r.period_data, row.active_users ≤ params.N0 := by
  obtain ⟨hNA, -, -, -, hle, hchain, -, -⟩ :=
    run_single_simulation_spec pkg params g r h
  exact ⟨hchain, fun row hrow => le_trans (hle row hrow) hNA⟩

/-- Witness for C10 at the concrete configuration. -/
theorem c10_witness :
    List.Chain' (fun a b => b.active_users ≤ a.active_users) wSim.period_data
  ∧ ∀ row ∈ wSim.period_data, row.active_users ≤ wParams.N0 :=
  c10_active_users_bounds wPkg wParams (wRngOf 5) wSim (by decide)

/-- C2 (code bug, evaluated at the failing input): the live request model
accepts the network-share triple `(0, 0, 0)` (its sum is ≤ 0 and there is
no validator), and instead of an `InvalidParameter` failure before
simulation begins, `run_monte_carlo` runs the acquisition and usage draws
and then: under a generator whose acquisition draw acquires a customer, it
aborts inside `_compute_network_data_cost` with an unclassified error
(`none`, the numpy `ValueError` surfaced as a generic HTTP 500); under a
generator whose acquisition draw returns no customers, the whole simulation
even completes normally.  The outcome depends on in-simulation randomness,
so no pre-simulation validation takes place. -/
theorem c2_zero_network_shares_bug :
    simulateRequestValidates c2Params c2Pkg = true
  ∧ c2Params.pct_3g + c2Params.pct_4g + c2Params.pct_5g ≤ 0
  ∧ run_monte_carlo c2RngHit c2Pkg c2Params 1 42 = none
  ∧ (run_monte_carlo c2RngMiss c2Pkg c2Params 1 42).isSome = true :=
  ⟨rfl, by decide, by decide, by decide⟩

/-- C3 (code bug, evaluated at the failing input): when all three tiers
fail, `bayesian_optimize` dereferences the still-`None` global best — the
unclassified `TypeError` crash — rather than failing with the
`SearchExhausted` classification the spec requires; when at least one tier
succeeds, the result is assembled from exactly the succeeding tiers. -/
theorem c3_tier_failure_handling :
    (∀ (rngOf : ℕ → RNG) (params : SimParams) (M s : ℕ),
        bayesian_optimize (fun _ => none) rngOf params M s = .error .noneTypeCrash)
  ∧ BOFault.noneTypeCrash ≠ BOFault.searchExhausted
  ∧ ∀ (p : PackageSpec) (mc : MCResult),
      bayesian_optimize_select [some (p, mc), none, none]
        = .ok ⟨{ p with label := "Optimal" }, mc.risk_adjusted_profit, mc, [(p, mc)]⟩ :=
  ⟨fun _ _ _ _ => rfl, by decide, fun _ _ => rfl⟩

/-- C8 (amended): `compute_sensitivity` returns its records sorted by
descending absolute gradient; every Monte Carlo evaluation inside it is
made at the same `(M, base_seed)` pair (the second conjunct: the output
depends on the oracle only through its values at that pair, so the seed is
never re-randomised across the plus/minus evaluations); and for every
target the record with the central-difference gradient built from the
source's evaluation points — `SimParams`-level continuous targets at
`value ± step`, package-level continuous targets at `value + step` and
`max(0.01, value − step)`, `validity_days` at `max(1, v + 1)` and
`max(1, v − 1)` — divided by `2 × step` (by 2 for `validity_days`) is in
the output.  (The original claim's "perturbed to value − step" is refuted
by `c8_counterexample`: the package-level minus side is clamped.) -/
theorem c8_sensitivity_structure (E : PackageSpec → SimParams → ℕ → ℕ → ℚ)
    (pkg : PackageSpec) (params : SimParams) (M base_seed : ℕ) :
    (compute_sensitivity E pkg params M base_seed).Pairwise
        (fun a b => b.abs_gradient ≤ a.abs_gradient)
  ∧ compute_sensitivity E pkg params M base_seed
      = compute_sensitivity (fun p q _ _ => E p q M base_seed) pkg params M base_seed
  ∧ ∀ t : SensTarget,
      (⟨targetName t, targetGradient E pkg params M base_seed t,
        |targetGradient E pkg params M base_seed t|⟩ : SensRecord)
        ∈ compute_sensitivity E pkg params M base_seed := by
  refine ⟨pairwise_sortByDesc _ _, rfl, fun t => ?_⟩
  rw [compute_sensitivity, mem_sortByDesc, sensRecords]
  have ht : t ∈ sensTargets := by cases t <;> decide
  exact List.mem_map_of_mem _ ht

/-- Counterexample for C8 as stated: on the default package
(`voice_min = 0`) the minus-side evaluation point for the continuous target
`voice_min` is the clamped `max(0.01, 0 − 5) = 0.01`, not
`value − step = −5`; consequently, under an expected-profit oracle that
returns the package's `voice_min`, the reported gradient is
`(5 − 0.01) / 10 = 0.499` while the claim's formula
`(E[profit]₊ − E[profit]₋) / (2·step)` at `value ± step` would give 1. -/
theorem c8_counterexample :
    pkgMinus SensTarget.voice_min c2Pkg = ⟨1, 1/100, 7, 100, "Standard"⟩
  ∧ (1/100 : ℚ) ≠ c2Pkg.voice_min - 5
  ∧ targetGradient (fun p _ _ _ => p.voice_min) c2Pkg wParams 10 42 SensTarget.voice_min
      = 499/1000
  ∧ ((c2Pkg.voice_min + 5) - (c2Pkg.voice_min - 5)) / (2 * 5) = 1
  ∧ (499/1000 : ℚ) ≠ 1 :=
  ⟨by decide, by decide, by decide, by decide, by decide⟩

/-- C9: the dispersion measure used for risk adjustment is the variance:
every `run_monte_carlo` result satisfies
`risk_adjusted_profit = expected_profit − risk_lambda · variance`, and the
tiered optimizer's objective hands the minimizer exactly the negation of
that same variance-based value for the candidate evaluated at
`M' = max(50, M // 3)` and seed `base_seed + counter · 997` — one uniform
rule at every call site. -/
theorem c9_risk_adjustment_uses_variance (rngOf : ℕ → RNG) (pkg : PackageSpec)
    (params : SimParams) (M s counter : ℕ) (price data_gb voice_min : ℚ)
    (validity_days : ℕ) (r : MCResult)
    (h : run_monte_carlo rngOf pkg params M s = some r) :
    r.risk_adjusted_profit = r.expected_profit - params.risk_lambda * r.variance
  ∧ boObjective rngOf params M s counter price data_gb voice_min validity_days
      = (run_monte_carlo rngOf ⟨data_gb, voice_min, validity_days, price, "BO"⟩ params
          (max 50 (M / 3)) (s + counter * 997)).map
          (fun mc => -(mc.expected_profit - params.risk_lambda * mc.variance)) := by
  constructor
  · obtain ⟨-, rs, -, hr⟩ := run_monte_carlo_inv rngOf pkg params M s r h
    rw [hr]
    rfl
  · rw [boObjective]
    cases hmc : run_monte_carlo rngOf ⟨data_gb, voice_min, validity_days, price, "BO"⟩
        params (max 50 (M / 3)) (s + counter * 997) with
    | none => rfl
    | some mc =>
      obtain ⟨-, rs2, -, hr2⟩ := run_monte_carlo_inv _ _ _ _ _ _ hmc
      rw [Option.map_some', Option.map_some', hr2]
      rfl

/-- Witness for C9 at the concrete configuration. -/
theorem c9_witness :
    wMC.risk_adjusted_profit = wMC.expected_profit - wParams.risk_lambda * wMC.variance
  ∧ boObjective wRngOf wParams 1 5 0 0 0 0 7
      = (run_monte_carlo wRngOf ⟨0, 0, 7, 0, "BO"⟩ wParams
          (max 50 (1 / 3)) (5 + 0 * 997)).map
          (fun mc => -(mc.expected_profit - wParams.risk_lambda * mc.variance)) :=
  c9_risk_adjustment_uses_variance wRngOf wPkg wParams 1 5 0 0 0 0 7 wMC (by decide)
